import Mathlib

/-!
Verification development for the YouTube comment sentiment analysis script
(`main.py`).  The Python source is shallowly embedded: pure string processing
is translated to functions on `List Char`, calls to external services
(YouTube Data API, translation service, VADER sentiment model) are injected
as function parameters, Python exceptions become `Except PyErr`, and Python
floats are modelled as exact rationals (`ℚ`).
-/

set_option maxRecDepth 10000

/-- Python exception classes that the embedded code can raise. -/
inductive PyErr where
  | valueError (msg : String)
  | keyError (key : String)
  | indexError
  | zeroDivisionError
  deriving DecidableEq, Repr

deriving instance DecidableEq for Except

/-- Character lists, the working representation of Python strings. -/
abbrev Chars := List Char

/-! ### Text Normalizer (`clean_text`, main.py lines 62-64)

`clean_text` is `re.sub(r'(?<=\b\w)\s+(?=\w\b)', '', text)`: delete every
whitespace run whose preceding character is a word character preceded by a
word boundary and whose following character is a word character followed by
a word boundary.  We model the ASCII fragment of Python's `\w` and `\s`
(the script's inputs of interest are ASCII; the regex semantics over the
modelled alphabet is exact). -/

/-- ASCII fragment of Python's regex `\s` (`' \t\n\r\x0b\x0c'`). -/
def wsC (c : Char) : Bool :=
  c = ' ' || c = '\t' || c = '\n' || c = '\r' || c = '\x0b' || c = '\x0c'

/-- ASCII fragment of Python's regex `\w`: letters, digits, underscore. -/
def wordC (c : Char) : Bool := c.isAlphanum || c = '_'

/-- Word-character test lifted to an optional context character
(`none` stands for the start of the string, which is not a word char). -/
def wordO : Option Char → Bool
  | none => false
  | some c => wordC c

/-- Does the list start with a word character?  (Used for the trailing
word-boundary test `\b` of the lookahead `(?=\w\b)`.) -/
def headWord : Chars → Bool
  | [] => false
  | c :: _ => wordC c

/-- The lookahead part of the pattern at a whitespace run: after the maximal
whitespace run there must be a word character followed by a word boundary
(i.e. by a non-word character or the end of the string).  `cs` is the part
of the string after the first whitespace character of the run. -/
def lookaheadWB (cs : Chars) : Bool :=
  match cs.dropWhile wsC with
  | [] => false
  | a :: r => wordC a && !headWord r

/-- Does the regex `(?<=\b\w)\s+(?=\w\b)` match at the current position?
`pp` and `p` are the two characters before the current position (`none` at
the start of the string): the lookbehind `(?<=\b\w)` holds when `p` is a
word character and `pp` is not. -/
def matchAt (pp p : Option Char) : Chars → Bool
  | [] => false
  | c :: cs => wsC c && wordO p && !wordO pp && lookaheadWB cs

/-- One left-to-right pass of `re.sub(r'(?<=\b\w)\s+(?=\w\b)', '', ·)`.
When the pattern matches, the whole whitespace run is deleted (the greedy
`\s+` must reach the first non-whitespace character for the lookahead to
hold, and no new match can start inside the run because there the previous
character is whitespace).  The deletion of a run is performed character by
character in a `deleting` mode, so the recursion is structural; scanning
resumes after the run with the context characters of the original string
just before the resume point.  `pp` and `p` are always the two original
characters before the current position. -/
def cleanAux : Option Char → Option Char → Bool → Chars → Chars
  | _, _, _, [] => []
  | pp, p, false, c :: cs =>
    if matchAt pp p (c :: cs) then cleanAux p (some c) true cs
    else c :: cleanAux p (some c) false cs
  | _, p, true, c :: cs =>
    if wsC c then cleanAux p (some c) true cs
    else c :: cleanAux p (some c) false cs

/-- Embedding of `clean_text` (main.py lines 62-64). -/
def clean_text (s : String) : String := String.mk (cleanAux none none false s.data)

/-! ### Comment Analyzer (`analyze_comment`, main.py lines 67-88) -/

/-- Sentiment category assigned to a single comment
(the Python strings `'Positive'`, `'Negative'`, `'Neutral'`). -/
inductive Category where
  | Positive
  | Negative
  | Neutral
  deriving DecidableEq, Repr

/-- Embedding of `analyze_comment` (main.py lines 67-88).
The external collaborators are injected:
`translate` models `translator.translate` (raising is `.error`, Python
`None` is `.ok none`, an empty translation is `.ok (some "")`), and
`polarity` models `analyzer.polarity_scores(·)['compound']`, the only field
of the VADER result the script reads.  The result is the triple
`(compound, category, final_text)`; the return type has no error channel
because the function catches every translation error (`except:`) and falls
back to the untranslated input (also when the translation is falsy). -/
def analyze_comment (translate : String → Except PyErr (Option String))
    (polarity : String → ℚ) (text : String) : ℚ × Category × String :=
  let translated : Option String :=
    match translate text with
    | .error _ => some text          -- `except: translated = text`
    | .ok r => r
  let translated : String :=
    match translated with            -- `if not translated: translated = text`
    | none => text
    | some s => if s = "" then text else s
  let final_text := clean_text translated
  let compound := polarity final_text
  let category : Category :=
    if compound ≥ 5/100 then .Positive
    else if compound ≤ -(5/100) then .Negative
    else .Neutral
  (compound, category, final_text)

/-- The classification rule as stated by the specification (section 4.3):
`score >= 0.05 → Positive`; `score <= -0.05 → Negative`; otherwise
`Neutral`.  Stated separately from `analyze_comment` so that the code's
inline classification can be compared against the spec's words. -/
def spec_category (score : ℚ) : Category :=
  if score ≥ 5/100 then .Positive
  else if score ≤ -(5/100) then .Negative
  else .Neutral

/-! ### Model of `urllib.parse` (CPython 3.11 `Lib/urllib/parse.py`)

`extract_video_id` relies on the standard-library functions `urlparse` and
`parse_qs`, so the relevant fragment of their behaviour is embedded here.
The model is faithful to CPython except for two documented restrictions:
percent-escapes are decoded only when they denote an ASCII byte (multi-byte
UTF-8 escape sequences are left verbatim), and the extra validation of
bracketed (IPv6) hosts added in CPython 3.11 is not modelled (the long-
standing `Invalid IPv6 URL` check for a netloc containing exactly one of
`[`, `]` is modelled).  Case conversion is ASCII, as in every input the
script cares about. -/

/-- Split a character list at every occurrence of `sep`, keeping empty
pieces, like Python `str.split(sep)`. -/
def splitChar (sep : Char) : Chars → List Chars
  | [] => [[]]
  | c :: cs =>
    match splitChar sep cs with
    | g :: gs => if c = sep then [] :: g :: gs else (c :: g) :: gs
    | [] => [[c]]  -- unreachable: the result is never empty

/-- Characters allowed after the first character of a URL scheme
(`scheme_chars` in CPython: letters, digits and `+-.`). -/
def schemeChar (c : Char) : Bool := c.isAlphanum || c = '+' || c = '-' || c = '.'

/-- The scheme-splitting step of `urlsplit`: if there is a `:` at position
`i > 0`, the first character is an ASCII letter and everything before the
`:` is made of scheme characters, split off the lowercased scheme. -/
def schemeSplit (url : Chars) : Chars × Chars :=
  match url.findIdx? (· = ':') with
  | some i =>
    if 0 < i ∧ (match url with | c :: _ => c.isAlpha | [] => false) = true
        ∧ ((url.take i).drop 1).all schemeChar
    then ((url.take i).map Char.toLower, url.drop (i + 1))
    else ([], url)
  | none => ([], url)

/-- `_splitnetloc(url, 2)` of CPython, applied to the part after `//`:
the netloc extends to the first `/`, `?` or `#`. -/
def netlocDelim (c : Char) : Bool := c ≠ '/' ∧ c ≠ '?' ∧ c ≠ '#'

/-- Result of `urlsplit`: the five components of a split URL. -/
structure SplitResult where
  scheme : Chars
  netloc : Chars
  path : Chars
  query : Chars
  fragment : Chars
  deriving DecidableEq, Repr

/-- The sanitation steps at the top of `urlsplit`: strip leading
C0-control-or-space characters, then remove every tab/CR/LF. -/
def stripUnsafe (url : Chars) : Chars :=
  (url.dropWhile (fun c => c.toNat ≤ 32)).filter
    (fun c => c ≠ '\t' ∧ c ≠ '\r' ∧ c ≠ '\n')

/-- The netloc-splitting step of `urlsplit`: after a leading `//`, the
netloc extends to the first `/`, `?` or `#`; without a leading `//` the
netloc is empty. -/
def netlocSplit (u : Chars) : Chars × Chars :=
  if u.take 2 = ['/', '/'] then
    ((u.drop 2).takeWhile netlocDelim, (u.drop 2).dropWhile netlocDelim)
  else ([], u)

/-- `url.split('#', 1)` when a `#` is present (fragments allowed). -/
def fragSplit (u : Chars) : Chars × Chars :=
  if '#' ∈ u then (u.takeWhile (· ≠ '#'), (u.dropWhile (· ≠ '#')).tail) else (u, [])

/-- `url.split('?', 1)` when a `?` is present. -/
def querySplit (u : Chars) : Chars × Chars :=
  if '?' ∈ u then (u.takeWhile (· ≠ '?'), (u.dropWhile (· ≠ '?')).tail) else (u, [])

/-- Embedding of `urllib.parse.urlsplit`.  Steps, in CPython order: strip
leading C0-control-or-space characters, remove every tab/CR/LF, split the
scheme, split the netloc after a leading `//` (raising `ValueError` when
the netloc contains exactly one of `[` and `]`), then split off first the
fragment at the first `#` and then the query at the first `?`. -/
def pyUrlsplit (url : Chars) : Except PyErr SplitResult :=
  let s := schemeSplit (stripUnsafe url)
  let nl := netlocSplit s.2
  if (nl.1.contains '[' != nl.1.contains ']') = true then
    .error (.valueError "Invalid IPv6 URL")
  else
    let f := fragSplit nl.2
    let q := querySplit f.1
    .ok ⟨s.1, nl.1, q.1, q.2, f.2⟩

/-- The schemes for which `urlparse` splits `;parameters` off the path
(`uses_params` in CPython). -/
def uses_params : List Chars :=
  ["", "ftp", "hdl", "prospero", "http", "imap", "https", "shttp", "rtsp",
   "rtsps", "rtspu", "sip", "sips", "snews", "tel", "fax", "sftp", "wais",
   "mms"].map String.data

/-- `_splitparams` of CPython: split `;parameters` off the last path
segment (the `;` is searched only from the last `/` on, when there is
one). -/
def splitparams (path : Chars) : Chars × Chars :=
  if '/' ∈ path then
    let segLen := (path.reverse.takeWhile (· ≠ '/')).length
    let seg := path.drop (path.length - segLen)
    if ';' ∈ seg then
      (path.take (path.length - segLen) ++ seg.takeWhile (· ≠ ';'),
       (seg.dropWhile (· ≠ ';')).tail)
    else (path, [])
  else
    if ';' ∈ path then (path.takeWhile (· ≠ ';'), (path.dropWhile (· ≠ ';')).tail)
    else (path, [])

/-- Result of `urlparse`: the six components of a parsed URL. -/
structure ParseResult6 where
  scheme : Chars
  netloc : Chars
  path : Chars
  params : Chars
  query : Chars
  fragment : Chars
  deriving DecidableEq, Repr

/-- Embedding of `urllib.parse.urlparse`: `urlsplit`, then `;parameters`
split off the path when the scheme uses parameters. -/
def pyUrlparse (url : Chars) : Except PyErr ParseResult6 :=
  match pyUrlsplit url with
  | .error e => .error e
  | .ok r =>
    if r.scheme ∈ uses_params ∧ ';' ∈ r.path then
      let pp := splitparams r.path
      .ok ⟨r.scheme, r.netloc, pp.1, pp.2, r.query, r.fragment⟩
    else
      .ok ⟨r.scheme, r.netloc, r.path, [], r.query, r.fragment⟩

/-- The `hostname` property of a CPython parse result: take the part of the
netloc after the last `@`, then the bracketed host if a `[` is present and
otherwise everything before the first `:`, lowercased; an empty host is
`None`. -/
def hostnameOf (netloc : Chars) : Option Chars :=
  let hostinfo := (netloc.reverse.takeWhile (· ≠ '@')).reverse
  let host :=
    if '[' ∈ hostinfo then ((hostinfo.dropWhile (· ≠ '[')).tail).takeWhile (· ≠ ']')
    else hostinfo.takeWhile (· ≠ ':')
  if host = [] then none else some (host.map Char.toLower)

/-- Value of a hexadecimal digit. -/
def hexVal (c : Char) : Option Nat :=
  if '0' ≤ c ∧ c ≤ '9' then some (c.toNat - '0'.toNat)
  else if 'a' ≤ c ∧ c ≤ 'f' then some (c.toNat - 'a'.toNat + 10)
  else if 'A' ≤ c ∧ c ≤ 'F' then some (c.toNat - 'A'.toNat + 10)
  else none

/-- Embedding of `urllib.parse.unquote` restricted to ASCII percent-escapes:
`%XY` with hex digits denoting a byte below 128 becomes that character;
any other `%` is kept verbatim (CPython additionally assembles multi-byte
UTF-8 sequences, which no input of interest here contains). -/
def unquote : Chars → Chars
  | '%' :: a :: b :: rest =>
    match hexVal a, hexVal b with
    | some x, some y =>
      if 16 * x + y < 128 then Char.ofNat (16 * x + y) :: unquote rest
      else '%' :: unquote (a :: b :: rest)
    | _, _ => '%' :: unquote (a :: b :: rest)
  | c :: rest => c :: unquote rest
  | [] => []

/-- `str.replace('+', ' ')`, the first step of `unquote_plus`. -/
def plusToSpace (s : Chars) : Chars := s.map (fun c => if c = '+' then ' ' else c)

/-- Embedding of `urllib.parse.parse_qsl` with CPython's defaults
(`keep_blank_values=False`, separator `&`): fields without `=` or with an
empty value are dropped, names and values are plus-decoded and
percent-unquoted. -/
def parse_qsl (qs : Chars) : List (Chars × Chars) :=
  (splitChar '&' qs).filterMap fun nv =>
    if nv = [] then none
    else
      match nv.dropWhile (· ≠ '=') with
      | [] => none                               -- no '=' in the field
      | _ :: value =>
        if value = [] then none                  -- blank value, dropped
        else some (unquote (plusToSpace (nv.takeWhile (· ≠ '='))),
                   unquote (plusToSpace value))

/-- `parse_qs(qs)[name][0]`, as an `Option`: the first value bound to
`name`, `none` when `name` is not a key of the dictionary. -/
def qsFirst (qs : Chars) (name : Chars) : Option Chars :=
  ((parse_qsl qs).find? (fun pr => pr.1 = name)).map (·.2)

/-! ### Identifier Extractor (`extract_video_id`, main.py lines 27-59) -/

/-- The recognized video-platform hostnames of main.py line 47. -/
def ytHosts : List Chars := ["www.youtube.com", "youtube.com", "m.youtube.com"].map String.data

/-- The bare-identifier test of main.py line 37: exactly 11 characters,
no space, no slash. -/
def looksLikeBareId (url : String) : Prop :=
  url.length = 11 ∧ ' ' ∉ url.data ∧ '/' ∉ url.data

instance (url : String) : Decidable (looksLikeBareId url) := by
  unfold looksLikeBareId; infer_instance

/-- Embedding of `extract_video_id` (main.py lines 27-59).  Python
exceptions escaping the function (`ValueError` from `urlparse`, `KeyError`
from `p['v'][0]`, `IndexError` from `split('/')[2]`) are the `.error`
outcomes; `.ok none` is the function's own `return None`. -/
def extract_video_id (url : String) : Except PyErr (Option String) :=
  if looksLikeBareId url then .ok (some url)
  else
    match pyUrlparse url.data with
    | .error e => .error e
    | .ok q =>
      if hostnameOf q.netloc = some "youtu.be".data then
        .ok (some (String.mk (q.path.drop 1)))
      else if hostnameOf q.netloc ∈ ytHosts.map some then
        if q.path = "/watch".data then
          match qsFirst q.query "v".data with
          | some v => .ok (some (String.mk v))
          | none => .error (.keyError "v")
        else if q.path.take 7 = "/embed/".data then
          match (splitChar '/' q.path).get? 2 with
          | some s => .ok (some (String.mk s))
          | none => .error .indexError
        else if q.path.take 3 = "/v/".data then
          match (splitChar '/' q.path).get? 2 with
          | some s => .ok (some (String.mk s))
          | none => .error .indexError
        else if q.path.take 8 = "/shorts/".data then
          match (splitChar '/' q.path).get? 2 with
          | some s => .ok (some (String.mk s))
          | none => .error .indexError
        else .ok none
      else .ok none

/-! ### Comment Fetcher (`get_data`, main.py lines 91-133) -/

/-- One comment record of the Result Table (the dict appended at main.py
lines 117-123; the Python keys are `Author`, `Original`, `Translated`,
`Score`, `Category`). -/
structure Record where
  author : String
  original : String
  translated : String
  score : ℚ
  category : Category
  deriving DecidableEq, Repr

/-- The fields main.py reads from one comment thread item
(`item['snippet']['topLevelComment']['snippet']`). -/
structure RawComment where
  textDisplay : String
  authorDisplayName : String
  deriving DecidableEq, Repr

/-- The injected YouTube Data API: `build` models
`build('youtube','v3',developerKey=·)` (only its success or failure
matters), and `commentThreads_list` models
`youtube.commentThreads().list(videoId=·, maxResults=·, ...).execute()`
followed by the per-item dictionary accesses, which can each raise —
hence one `Except` per item. -/
structure YouTubeAPI where
  build : String → Except PyErr Unit
  commentThreads_list : String → Nat → Except PyErr (List (Except PyErr RawComment))

/-- The record built for one fetched comment (main.py lines 111-123). -/
def mkRecord (translate : String → Except PyErr (Option String))
    (polarity : String → ℚ) (rc : RawComment) : Record :=
  let r := analyze_comment translate polarity rc.textDisplay
  ⟨rc.authorDisplayName, rc.textDisplay, r.2.2, r.1, r.2.1⟩

/-- The body of the fetch loop (main.py lines 110-126): process the items
in API order, raising as soon as one item's dictionary access raises. -/
def processItems (translate : String → Except PyErr (Option String))
    (polarity : String → ℚ) :
    List (Except PyErr RawComment) → Except PyErr (List Record)
  | [] => .ok []
  | item :: rest =>
    match item with
    | .error e => .error e
    | .ok rc =>
      match processItems translate polarity rest with
      | .error e => .error e
      | .ok recs => .ok (mkRecord translate polarity rc :: recs)

/-- Embedding of `get_data` (main.py lines 91-133): any exception from the
API connection, the request, or the per-item processing is caught and
turns the whole fetch into `None`; on success the table holds one record
per item, in API response order. -/
def get_data (api : YouTubeAPI) (translate : String → Except PyErr (Option String))
    (polarity : String → ℚ) (video_id api_key : String) (max_results : Nat) :
    Option (List Record) :=
  match api.build api_key with
  | .error _ => none
  | .ok _ =>
    match api.commentThreads_list video_id max_results with
    | .error _ => none
    | .ok items =>
      match processItems translate polarity items with
      | .error _ => none
      | .ok recs => some recs

/-- Keep the payloads of a list of `Except` values, `none` as soon as one
is an error: the shape of a fetch response whose items all parse. -/
def allOkItems : List (Except PyErr RawComment) → Option (List RawComment)
  | [] => some []
  | .error _ :: _ => none
  | .ok rc :: rest => (allOkItems rest).map (rc :: ·)

/-! ### Report Generator (`show_report`, main.py lines 136-196) -/

/-- The audience verdict label of main.py lines 143-148. -/
inductive Verdict where
  | positive
  | negative
  | mixed
  deriving DecidableEq, Repr

/-- The aggregate numbers `show_report` computes and prints.  `avg_score`
is `none` for the pandas `NaN` that `mean()` yields on an empty column. -/
structure ReportSummary where
  total : Nat
  avg_score : Option ℚ
  verdict : Verdict
  pos_count : Nat
  neg_count : Nat
  neu_count : Nat
  pos_pct : ℚ
  neg_pct : ℚ
  neu_pct : ℚ
  deriving DecidableEq, Repr

/-- Sum of the `Score` column. -/
def scoreSum (df : List Record) : ℚ := (df.map (·.score)).sum

/-- `len(df[df['Category'] == c])`. -/
def countCat (df : List Record) (c : Category) : Nat :=
  df.countP (fun r => r.category = c)

/-- Embedding of the aggregate part of `show_report` (main.py lines
136-160).  `df['Score'].mean()` on an empty column is `NaN` (modelled as
`none`); both `NaN > 0.1` and `NaN < -0.1` are false in Python, so the
verdict falls to the neutral branch.  The percentage expressions
`count / total * 100` raise `ZeroDivisionError` when the table is empty;
there is no explicit emptiness guard in the source, which is why the
empty table is an error outcome rather than a handled case.  The chart
rendering and console printing (lines 150-196) have no logic beyond
direct library calls and are not modelled. -/
def show_report (df : List Record) : Except PyErr ReportSummary :=
  let total := df.length
  let avg : Option ℚ := if total = 0 then none else some (scoreSum df / total)
  let verdict : Verdict :=
    match avg with
    | some a => if a > 1/10 then .positive else if a < -(1/10) then .negative else .mixed
    | none => .mixed
  let pos := countCat df .Positive
  let neg := countCat df .Negative
  let neu := countCat df .Neutral
  if total = 0 then .error .zeroDivisionError
  else .ok ⟨total, avg, verdict, pos, neg, neu,
            (pos : ℚ) / total * 100, (neg : ℚ) / total * 100, (neu : ℚ) / total * 100⟩

/-! ### CLI driver (main.py lines 200-221) -/

/-- `MAX_RESULTS = 50` (main.py line 18). -/
def MAX_RESULTS : Nat := 50

/-- Python `str.strip()` with no argument (ASCII whitespace fragment). -/
def pyStrip (s : String) : String :=
  String.mk (((s.data.dropWhile wsC).reverse.dropWhile wsC).reverse)

/-- Observable outcome of one CLI run (which console path was taken, and
the table on success). -/
inductive MainOutcome where
  | missingKey
  | badUrl
  | fetchFailed (video_id : String)
  | report (video_id : String) (table : List Record)
  deriving DecidableEq, Repr

/-- Embedding of the `__main__` block (main.py lines 200-221): exit if the
API key is absent or empty, strip the input, extract the identifier
(`None` → the unrecognized-link message), fetch with the module constant
`MAX_RESULTS`, and on a successful fetch run `show_report` (whose
exception on an empty table propagates, as does any exception of
`extract_video_id`).  The CSV export is a direct library call and is not
modelled. -/
def main_run (api : YouTubeAPI) (translate : String → Except PyErr (Option String))
    (polarity : String → ℚ) (api_key : Option String) (url_input : String) :
    Except PyErr MainOutcome :=
  match api_key with
  | none => .ok .missingKey
  | some key =>
    if key = "" then .ok .missingKey
    else
      match extract_video_id (pyStrip url_input) with
      | .error e => .error e
      | .ok none => .ok .badUrl
      | .ok (some vid) =>
        match get_data api translate polarity vid key MAX_RESULTS with
        | none => .ok (.fetchFailed vid)
        | some df =>
          match show_report df with
          | .error e => .error e
          | .ok _ => .ok (.report vid df)

/-- No position of `l` matches the substitution pattern, given the two
context characters just before `l`: the property a string must have for
one more pass of the substitution to leave it unchanged. -/
def noMatch : Option Char → Option Char → Chars → Bool
  | _, _, [] => true
  | pp, p, c :: cs => !matchAt pp p (c :: cs) && noMatch p (some c) cs

/-! ## Theorems -/

theorem ws_not_word {c : Char} (h : wsC c = true) : wordC c = false := by
  simp [wsC] at h
  rcases h with ((((h | h) | h) | h) | h) | h <;> subst h <;> decide

theorem word_not_ws {c : Char} (h : wordC c = true) : wsC c = false := by
  cases hw : wsC c
  · rfl
  · rw [ws_not_word hw] at h
    cases h

theorem noMatch_congr {pp1 pp2 p : Option Char} (l : Chars) (h : wordO pp1 = wordO pp2) :
    noMatch pp1 p l = noMatch pp2 p l := by
  cases l with
  | nil => rfl
  | cons c cs => simp [noMatch, matchAt, h]

theorem noMatch_of_word {pp1 pp2 p : Option Char} (l : Chars) (h2 : wordO pp2 = true)
    (h : noMatch pp1 p l = true) : noMatch pp2 p l = true := by
  cases l with
  | nil => rfl
  | cons c cs =>
    simp [noMatch] at h
    simp [noMatch, matchAt, h2, h.2]

theorem cleanAux_of_noMatch : ∀ (l : Chars) (pp p : Option Char),
    noMatch pp p l = true → cleanAux pp p false l = l := by
  intro l
  induction l with
  | nil => intro pp p _; rfl
  | cons c cs ih =>
    intro pp p h
    simp [noMatch] at h
    simp [cleanAux, h.1]
    exact ih p (some c) h.2

theorem dropWhile_head_false {α : Type} {p : α → Bool} :
    ∀ {l : List α} {a : α} {r : List α}, l.dropWhile p = a :: r → p a = false := by
  intro l
  induction l with
  | nil => intro a r h; cases h
  | cons x xs ih =>
    intro a r h
    by_cases hx : p x = true
    · rw [List.dropWhile_cons_of_pos hx] at h
      exact ih h
    · rw [List.dropWhile_cons_of_neg hx] at h
      cases h
      simpa using hx

theorem cleanAux_ws_prefix : ∀ (w rest : Chars) (pp p : Option Char),
    (∀ x ∈ w, wsC x = true) → wordO p = false →
    ∃ pp2 p2, wordO p2 = false ∧
      cleanAux pp p false (w ++ rest) = w ++ cleanAux pp2 p2 false rest := by
  intro w
  induction w with
  | nil => intro rest pp p _ hp; exact ⟨pp, p, hp, rfl⟩
  | cons x w' ih =>
    intro rest pp p hw hp
    have hx : wsC x = true := hw x (by simp)
    have hm : matchAt pp p (x :: (w' ++ rest)) = false := by simp [matchAt, hp]
    have hw' : ∀ y ∈ w', wsC y = true := fun y hy => hw y (by simp [hy])
    obtain ⟨pp2, p2, h2, heq⟩ := ih rest p (some x) hw' (by simp [wordO, ws_not_word hx])
    exact ⟨pp2, p2, h2, by simp [cleanAux, hm, heq]⟩

theorem lookahead_cleanAux {cs : Chars} {pp p : Option Char}
    (hp : wordO p = false) (hl : lookaheadWB cs = false) :
    lookaheadWB (cleanAux pp p false cs) = false := by
  obtain ⟨pp2, p2, h2, heq⟩ := cleanAux_ws_prefix (cs.takeWhile wsC) (cs.dropWhile wsC) pp p
    (fun x hx => List.mem_takeWhile_imp hx) hp
  rw [List.takeWhile_append_dropWhile] at heq
  rw [heq]
  have hws : ∀ x ∈ cs.takeWhile wsC, wsC x = true := fun x hx => List.mem_takeWhile_imp hx
  cases hrest : cs.dropWhile wsC with
  | nil =>
    have hnil : List.dropWhile wsC (List.takeWhile wsC cs) = [] :=
      List.dropWhile_eq_nil_iff.mpr hws
    simp [cleanAux, lookaheadWB, hnil]
  | cons a r2 =>
    have ha : wsC a = false := dropWhile_head_false hrest
    have hma : matchAt pp2 p2 (a :: r2) = false := by simp [matchAt, ha]
    have hstep : cleanAux pp2 p2 false (a :: r2) = a :: cleanAux p2 (some a) false r2 := by
      simp [cleanAux, hma]
    rw [hstep]
    have hdw : List.dropWhile wsC (List.takeWhile wsC cs ++ a :: cleanAux p2 (some a) false r2)
        = a :: cleanAux p2 (some a) false r2 := by
      rw [List.dropWhile_append_of_pos hws, List.dropWhile_cons_of_neg (by simp [ha])]
    simp only [lookaheadWB, hdw]
    simp only [lookaheadWB, hrest] at hl
    by_cases hwa : wordC a = true
    · have hhw : headWord r2 = true := by
        simp [hwa] at hl
        exact hl
      cases r2 with
      | nil => simp [headWord] at hhw
      | cons b r3 =>
        have hb : wordC b = true := by simpa [headWord] using hhw
        have hbws : wsC b = false := word_not_ws hb
        have hmb : matchAt p2 (some a) (b :: r3) = false := by simp [matchAt, hbws]
        simp [cleanAux, hmb, headWord, hb]
    · have hwa' : wordC a = false := by simpa using hwa
      simp [hwa']

theorem noMatch_cleanAux : ∀ (n : Nat) (l : Chars), l.length ≤ n → ∀ (pp p : Option Char),
    (noMatch pp p (cleanAux pp p false l) = true)
    ∧ (wordO p = false → ∀ pp2 p2, noMatch pp2 p2 (cleanAux pp p true l) = true) := by
  intro n
  induction n with
  | zero =>
    intro l hl pp p
    have : l = [] := List.length_eq_zero.mp (Nat.le_zero.mp hl)
    subst this
    exact ⟨rfl, fun _ _ _ => rfl⟩
  | succ n ih =>
    intro l hl pp p
    cases l with
    | nil => exact ⟨rfl, fun _ _ _ => rfl⟩
    | cons c cs =>
      have hcs : cs.length ≤ n := by simp at hl; omega
      constructor
      · by_cases hm : matchAt pp p (c :: cs) = true
        · have hws : wsC c = true := by
            simp [matchAt] at hm
            exact hm.1.1.1
          have hout : cleanAux pp p false (c :: cs) = cleanAux p (some c) true cs := by
            simp [cleanAux, hm]
          rw [hout]
          exact (ih cs hcs p (some c)).2 (by simp [wordO, ws_not_word hws]) pp p
        · have hm' : matchAt pp p (c :: cs) = false := by simpa using hm
          have hout : cleanAux pp p false (c :: cs) = c :: cleanAux p (some c) false cs := by
            simp [cleanAux, hm']
          rw [hout]
          simp only [noMatch, Bool.and_eq_true, Bool.not_eq_true']
          refine ⟨?_, (ih cs hcs p (some c)).1⟩
          by_cases hL : (wsC c && wordO p && !wordO pp) = true
          · have hws : wsC c = true := by
              simp at hL
              exact hL.1.1
            have hp' : wordO (some c) = false := by simp [wordO, ws_not_word hws]
            have hlook : lookaheadWB cs = false := by
              cases hlk : lookaheadWB cs
              · rfl
              · exfalso
                apply hm
                simp only [matchAt]
                simp at hL
                simp [hL.1.1, hL.1.2, hL.2, hlk]
            have := @lookahead_cleanAux cs p (some c) hp' hlook
            simp only [matchAt, this, Bool.and_false]
          · have : (wsC c && wordO p && !wordO pp) = false := by simpa using hL
            simp only [matchAt, this, Bool.false_and]
      · intro hp pp2 p2
        by_cases hws : wsC c = true
        · have hout : cleanAux pp p true (c :: cs) = cleanAux p (some c) true cs := by
            simp [cleanAux, hws]
          rw [hout]
          exact (ih cs hcs p (some c)).2 (by simp [wordO, ws_not_word hws]) pp2 p2
        · have hws' : wsC c = false := by simpa using hws
          have hout : cleanAux pp p true (c :: cs) = c :: cleanAux p (some c) false cs := by
            simp [cleanAux, hws']
          rw [hout]
          simp only [noMatch, Bool.and_eq_true, Bool.not_eq_true']
          constructor
          · simp [matchAt, hws']
          · have hT := (ih cs hcs p (some c)).1
            by_cases h2 : wordO p2 = true
            · exact noMatch_of_word _ h2 hT
            · have h2' : wordO p2 = false := by simpa using h2
              rwa [@noMatch_congr p p2 (some c) _ (by rw [hp, h2'])] at hT

theorem cleanAux_idempotent (l : Chars) :
    cleanAux none none false (cleanAux none none false l) = cleanAux none none false l :=
  cleanAux_of_noMatch _ none none ((noMatch_cleanAux l.length l (le_refl _) none none).1)

/-- C7: the Text Normalizer is idempotent — `normalize(normalize(x)) =
normalize(x)` for every string; in particular `"T O P secret"` normalizes
to `"TOP secret"`, and applying the normalizer again leaves it
unchanged. -/
theorem clean_text_idempotent :
    (∀ x : String, clean_text (clean_text x) = clean_text x)
    ∧ clean_text "T O P secret" = "TOP secret"
    ∧ clean_text "TOP secret" = "TOP secret" := by
  refine ⟨fun x => ?_, by decide, by decide⟩
  show String.mk (cleanAux none none false (String.mk (cleanAux none none false x.data)).data)
      = String.mk (cleanAux none none false x.data)
  exact congrArg String.mk (cleanAux_idempotent x.data)

/-- C2: the category of an analyzed comment is a pure deterministic
function of the compound score with the fixed thresholds `score ≥ 0.05 →
Positive`, `score ≤ -0.05 → Negative`, otherwise `Neutral` (so exactly
0.05 is Positive, exactly -0.05 is Negative, 0 is Neutral), and every
record of a table produced by the Comment Fetcher satisfies this
score-to-category relation. -/
theorem analyze_category_of_score :
    (∀ translate polarity text,
      (analyze_comment translate polarity text).2.1
        = spec_category (analyze_comment translate polarity text).1)
    ∧ spec_category (5/100) = .Positive
    ∧ spec_category (-(5/100)) = .Negative
    ∧ spec_category 0 = .Neutral
    ∧ (∀ api translate polarity vid key n tbl r,
        get_data api translate polarity vid key n = some tbl → r ∈ tbl →
          r.category = spec_category r.score) := by
  refine ⟨fun _ _ _ => rfl, by norm_num [spec_category], by norm_num [spec_category],
    by norm_num [spec_category], ?_⟩
  intro api translate polarity vid key n tbl r hget hr
  have hproc : ∃ items, processItems translate polarity items = .ok tbl := by
    unfold get_data at hget
    cases hb : api.build key with
    | error e => simp [hb] at hget
    | ok u =>
      simp only [hb] at hget
      cases hl : api.commentThreads_list vid n with
      | error e => simp [hl] at hget
      | ok items =>
        simp only [hl] at hget
        cases hp : processItems translate polarity items with
        | error e => simp [hp] at hget
        | ok recs =>
          simp only [hp, Option.some.injEq] at hget
          subst hget
          exact ⟨items, hp⟩
  obtain ⟨items, hp⟩ := hproc
  have hmem : ∀ items tbl, processItems translate polarity items = .ok tbl →
      ∀ r ∈ tbl, ∃ rc, r = mkRecord translate polarity rc := by
    intro items
    induction items with
    | nil =>
      intro tbl h r hr
      cases h
      cases hr
    | cons item rest ih =>
      intro tbl h r hr
      cases item with
      | error e => cases h
      | ok rc =>
        simp only [processItems] at h
        cases hrest : processItems translate polarity rest with
        | error e => rw [hrest] at h; cases h
        | ok recs =>
          rw [hrest] at h
          cases h
          rcases List.mem_cons.mp hr with h1 | h1
          · exact ⟨rc, h1⟩
          · exact ih recs hrest r h1
  obtain ⟨rc, rfl⟩ := hmem items tbl hp r hr
  rfl

/-- C3: on translation failure (any raised error) or a falsy translation
result (`None` or the empty string), the Comment Analyzer falls back to
the input text itself — it behaves exactly as with an identity
translation, its returned text is the normalized input, and its score is
the polarity of that text; the error is never surfaced (the return type
of `analyze_comment` has no error channel at all). -/
theorem analyze_translation_fallback :
    ∀ translate polarity text,
      ((∃ e, translate text = .error e) ∨ translate text = .ok none
        ∨ translate text = .ok (some "")) →
      analyze_comment translate polarity text
        = analyze_comment (fun s => .ok (some s)) polarity text
      ∧ (analyze_comment translate polarity text).2.2 = clean_text text
      ∧ (analyze_comment translate polarity text).1 = polarity (clean_text text) := by
  intro translate polarity text h
  have hkey : (match (match translate text with
      | .error _ => some text
      | .ok r => r) with
      | none => text
      | some s => if s = "" then text else s) = text := by
    rcases h with ⟨e, he⟩ | he | he <;> simp [he]
  have hfb : analyze_comment translate polarity text
      = (polarity (clean_text text), spec_category (polarity (clean_text text)),
         clean_text text) := by
    simp only [analyze_comment, spec_category]
    rw [hkey]
  have hid : analyze_comment (fun s => Except.ok (some s)) polarity text
      = (polarity (clean_text text), spec_category (polarity (clean_text text)),
         clean_text text) := by
    simp only [analyze_comment, spec_category]
    simp
  exact ⟨hfb.trans hid.symm, by rw [hfb], by rw [hfb]⟩

/-- Witness for C2 at concrete inputs: a one-record table produced by
`get_data` whose record satisfies the score-to-category relation. -/
theorem analyze_category_of_score_witness :
    (mkRecord (fun _ => Except.ok none) (fun _ => (3 : ℚ)/10) ⟨"great", "Ann"⟩).category
      = spec_category (mkRecord (fun _ => Except.ok none) (fun _ => (3 : ℚ)/10) ⟨"great", "Ann"⟩).score :=
  analyze_category_of_score.2.2.2.2
    ⟨fun _ => .ok (), fun _ _ => .ok [.ok ⟨"great", "Ann"⟩]⟩
    (fun _ => Except.ok none) (fun _ => (3 : ℚ)/10) "vid" "key" 50
    [mkRecord (fun _ => Except.ok none) (fun _ => (3 : ℚ)/10) ⟨"great", "Ann"⟩]
    (mkRecord (fun _ => Except.ok none) (fun _ => (3 : ℚ)/10) ⟨"great", "Ann"⟩)
    rfl (List.mem_singleton.mpr rfl)

/-- Witness for C3 at concrete inputs: a translator that raises. -/
theorem analyze_translation_fallback_witness :
    analyze_comment (fun _ => Except.error (PyErr.valueError "offline")) (fun _ => (1 : ℚ)/2) "bonjour"
      = analyze_comment (fun s => Except.ok (some s)) (fun _ => (1 : ℚ)/2) "bonjour"
    ∧ (analyze_comment (fun _ => Except.error (PyErr.valueError "offline")) (fun _ => (1 : ℚ)/2) "bonjour").2.2
      = clean_text "bonjour"
    ∧ (analyze_comment (fun _ => Except.error (PyErr.valueError "offline")) (fun _ => (1 : ℚ)/2) "bonjour").1
      = (fun _ => (1 : ℚ)/2) (clean_text "bonjour") :=
  analyze_translation_fallback _ _ _ (Or.inl ⟨PyErr.valueError "offline", rfl⟩)

theorem processItems_of_allOk {translate : String → Except PyErr (Option String)}
    {polarity : String → ℚ} :
    ∀ {items : List (Except PyErr RawComment)} {rcs : List RawComment},
      allOkItems items = some rcs →
      processItems translate polarity items = .ok (rcs.map (mkRecord translate polarity)) := by
  intro items
  induction items with
  | nil =>
    intro rcs h
    cases h
    rfl
  | cons item rest ih =>
    intro rcs h
    cases item with
    | error e => cases h
    | ok rc =>
      simp only [allOkItems] at h
      cases hrest : allOkItems rest with
      | none => rw [hrest] at h; cases h
      | some rcs' =>
        rw [hrest] at h
        simp at h
        subst h
        simp only [processItems, ih hrest, List.map_cons]

theorem processItems_of_err {translate : String → Except PyErr (Option String)}
    {polarity : String → ℚ} :
    ∀ {items : List (Except PyErr RawComment)},
      allOkItems items = none →
      ∃ e, processItems translate polarity items = .error e := by
  intro items
  induction items with
  | nil => intro h; cases h
  | cons item rest ih =>
    intro h
    cases item with
    | error e => exact ⟨e, rfl⟩
    | ok rc =>
      simp only [allOkItems] at h
      cases hrest : allOkItems rest with
      | none =>
        obtain ⟨e, he⟩ := ih hrest
        exact ⟨e, by simp only [processItems, he]⟩
      | some rcs' => rw [hrest] at h; cases h

theorem allOkItems_length :
    ∀ {items : List (Except PyErr RawComment)} {rcs : List RawComment},
      allOkItems items = some rcs → rcs.length = items.length := by
  intro items
  induction items with
  | nil =>
    intro rcs h
    cases h
    rfl
  | cons item rest ih =>
    intro rcs h
    cases item with
    | error e => cases h
    | ok rc =>
      simp only [allOkItems] at h
      cases hrest : allOkItems rest with
      | none => rw [hrest] at h; cases h
      | some rcs' =>
        rw [hrest] at h
        simp at h
        subst h
        simp [ih hrest]

/-- C4: the fetch is atomic — if the API connection, the request, or any
per-item processing raises, `get_data` returns `None` and no partial
table; on an error-free response the table is exactly the records of the
items, in API response order (`List.map` preserves order).  The injected
request is a single value, so no retry is possible by construction. -/
theorem get_data_atomic :
    ∀ (api : YouTubeAPI) (translate : String → Except PyErr (Option String))
      (polarity : String → ℚ) (vid key : String) (n : Nat),
      (∀ e, api.build key = .error e →
        get_data api translate polarity vid key n = none)
      ∧ (∀ e, api.commentThreads_list vid n = .error e →
        get_data api translate polarity vid key n = none)
      ∧ (∀ items, api.commentThreads_list vid n = .ok items → allOkItems items = none →
        get_data api translate polarity vid key n = none)
      ∧ (∀ items rcs, api.commentThreads_list vid n = .ok items →
        allOkItems items = some rcs →
        get_data api translate polarity vid key n
          = (api.build key).toOption.map (fun _ => rcs.map (mkRecord translate polarity))) := by
  intro api translate polarity vid key n
  refine ⟨?_, ?_, ?_, ?_⟩
  · intro e he
    simp [get_data, he]
  · intro e he
    unfold get_data
    cases hb : api.build key with
    | error e2 => rfl
    | ok u => simp [he]
  · intro items hl hnone
    unfold get_data
    cases hb : api.build key with
    | error e2 => rfl
    | ok u =>
      obtain ⟨e, he⟩ := @processItems_of_err translate polarity _ hnone
      simp [hl, he]
  · intro items rcs hl hsome
    unfold get_data
    cases hb : api.build key with
    | error e2 => rfl
    | ok u =>
      simp [hl, processItems_of_allOk hsome, Except.toOption]

/-- Witness for C4 at concrete inputs: a failing request yields `None`,
and a successful two-item response yields exactly the two records in
response order. -/
theorem get_data_atomic_witness :
    get_data ⟨fun _ => .ok (), fun _ _ => .error .indexError⟩
      (fun _ => Except.ok none) (fun _ => (0 : ℚ)) "vid" "key" 50 = none
    ∧ get_data ⟨fun _ => .ok (), fun _ _ => .ok [.ok ⟨"t1", "a1"⟩, .ok ⟨"t2", "a2"⟩]⟩
      (fun _ => Except.ok none) (fun _ => (0 : ℚ)) "vid" "key" 50
      = (Except.ok (ε := PyErr) ()).toOption.map
          (fun _ => [⟨"t1", "a1"⟩, ⟨"t2", "a2"⟩].map
            (mkRecord (fun _ => Except.ok none) (fun _ => (0 : ℚ)))) := by
  constructor
  · exact (get_data_atomic ⟨fun _ => .ok (), fun _ _ => .error .indexError⟩
      (fun _ => Except.ok none) (fun _ => (0 : ℚ)) "vid" "key" 50).2.1 .indexError rfl
  · exact (get_data_atomic _ (fun _ => Except.ok none) (fun _ => (0 : ℚ))
      "vid" "key" 50).2.2.2 [.ok ⟨"t1", "a1"⟩, .ok ⟨"t2", "a2"⟩] [⟨"t1", "a1"⟩, ⟨"t2", "a2"⟩]
      rfl rfl

/-- C5: for a non-empty Result Table the verdict is the Positive label
exactly when the mean score is strictly greater than 0.1, the Negative
label exactly when it is strictly less than -0.1, and the Mixed/Neutral
label otherwise; and the 0.1 verdict threshold is a constant distinct
from the 0.05 per-comment classification threshold. -/
theorem show_report_verdict :
    ∀ (df : List Record) (r : ReportSummary), show_report df = .ok r →
      r.avg_score = some (scoreSum df / df.length)
      ∧ (r.verdict = .positive ↔ scoreSum df / df.length > 1/10)
      ∧ (r.verdict = .negative ↔ scoreSum df / df.length < -(1/10))
      ∧ (r.verdict = .mixed ↔
          ¬scoreSum df / df.length > 1/10 ∧ ¬scoreSum df / df.length < -(1/10))
      ∧ (1 : ℚ)/10 ≠ 5/100 := by
  intro df r h
  unfold show_report at h
  by_cases hd : df.length = 0
  · simp [hd] at h
  · simp only [if_neg hd, Except.ok.injEq] at h
    subst h
    refine ⟨rfl, ?_, ?_, ?_, by norm_num⟩ <;>
    · dsimp only
      by_cases hA : scoreSum df / (df.length : ℚ) > 1/10
      · by_cases hB : scoreSum df / (df.length : ℚ) < -(1/10)
        · exact absurd (lt_trans hA hB) (by norm_num)
        · rw [if_pos hA]
          simp [hA, hB] <;> (intros; first | linarith | (constructor <;> linarith))
      · rw [if_neg hA]
        by_cases hB : scoreSum df / (df.length : ℚ) < -(1/10)
        · rw [if_pos hB]
          simp [hA, hB] <;> (intros; first | linarith | (constructor <;> linarith))
        · rw [if_neg hB]
          simp [hA, hB] <;> (intros; first | linarith | (constructor <;> linarith))

/-- C6: on an empty Result Table the Report Generator fails with the
`ZeroDivisionError` of the percentage expressions — there is no explicit
emptiness guard that would turn this into a handled case — while every
non-empty table produces a report. -/
theorem show_report_empty :
    show_report [] = .error PyErr.zeroDivisionError
    ∧ ∀ df : List Record, df ≠ [] → ∃ r, show_report df = .ok r := by
  constructor
  · rfl
  · intro df hdf
    have hd : df.length ≠ 0 := fun h => hdf (List.length_eq_zero.mp h)
    unfold show_report
    rw [if_neg hd]
    exact ⟨_, rfl⟩

/-- Witness for C6: the empty table errors, the singleton table
reports. -/
theorem show_report_empty_witness :
    show_report [] = .error PyErr.zeroDivisionError
    ∧ ∃ r, show_report [⟨"a", "o", "t", 1/2, .Positive⟩] = .ok r :=
  ⟨show_report_empty.1, show_report_empty.2 _ (by simp)⟩

theorem countCat_partition (df : List Record) :
    countCat df .Positive + countCat df .Negative + countCat df .Neutral = df.length := by
  induction df with
  | nil => rfl
  | cons r rest ih =>
    simp only [countCat, List.countP_cons] at ih ⊢
    cases hc : r.category <;> simp [hc] <;> omega

/-- C9: the three per-category percentages of any successfully generated
report sum to exactly 100, because Positive, Negative and Neutral
partition the records. -/
theorem report_percentages_sum :
    ∀ (df : List Record) (r : ReportSummary), show_report df = .ok r →
      r.pos_pct + r.neg_pct + r.neu_pct = 100 := by
  intro df r h
  unfold show_report at h
  by_cases hd : df.length = 0
  · simp [hd] at h
  · simp only [if_neg hd, Except.ok.injEq] at h
    subst h
    dsimp only
    have hpart : ((countCat df .Positive : ℚ)) + countCat df .Negative + countCat df .Neutral
        = (df.length : ℚ) := by exact_mod_cast countCat_partition df
    have ht : (df.length : ℚ) ≠ 0 := Nat.cast_ne_zero.mpr hd
    field_simp
    linear_combination (100 : ℚ) * hpart

theorem processItems_length {translate : String → Except PyErr (Option String)}
    {polarity : String → ℚ} :
    ∀ {items : List (Except PyErr RawComment)} {recs : List Record},
      processItems translate polarity items = .ok recs → recs.length = items.length := by
  intro items
  induction items with
  | nil =>
    intro recs h
    cases h
    rfl
  | cons item rest ih =>
    intro recs h
    cases item with
    | error e => cases h
    | ok rc =>
      simp only [processItems] at h
      cases hrest : processItems translate polarity rest with
      | error e => rw [hrest] at h; cases h
      | ok recs' =>
        rw [hrest] at h
        cases h
        simp [ih hrest]

theorem get_data_some_length {api : YouTubeAPI}
    {translate : String → Except PyErr (Option String)} {polarity : String → ℚ}
    {vid key : String} {n : Nat} {tbl : List Record}
    (h : get_data api translate polarity vid key n = some tbl) :
    ∃ items, api.commentThreads_list vid n = .ok items ∧ tbl.length = items.length := by
  unfold get_data at h
  cases hb : api.build key with
  | error e => simp [hb] at h
  | ok u =>
    simp only [hb] at h
    cases hl : api.commentThreads_list vid n with
    | error e => simp [hl] at h
    | ok items =>
      simp only [hl] at h
      cases hp : processItems translate polarity items with
      | error e => simp [hp] at h
      | ok recs =>
        simp only [hp, Option.some.injEq] at h
        subst h
        exact ⟨items, rfl, processItems_length hp⟩

/-- C10: the module constant `MAX_RESULTS` is 50 and the CLI driver always
invokes the Comment Fetcher with it — the user's only runtime input is the
URL string, which cannot change the limit — so whenever the external API
honours `maxResults` (returns at most as many items as requested), a run
analyzes at most 50 comments. -/
theorem main_max_results :
    MAX_RESULTS = 50
    ∧ ∀ (api : YouTubeAPI) (translate : String → Except PyErr (Option String))
        (polarity : String → ℚ) (api_key : Option String) (url_input vid : String)
        (tbl : List Record),
        (∀ v n items, api.commentThreads_list v n = .ok items → items.length ≤ n) →
        main_run api translate polarity api_key url_input = .ok (.report vid tbl) →
        tbl.length ≤ 50 := by
  refine ⟨rfl, ?_⟩
  intro api translate polarity api_key url_input vid tbl hapi hmain
  unfold main_run at hmain
  cases api_key with
  | none => simp at hmain
  | some key =>
    by_cases hk : key = ""
    · simp [hk] at hmain
    · simp only [if_neg hk] at hmain
      cases hx : extract_video_id (pyStrip url_input) with
      | error e => rw [hx] at hmain; cases hmain
      | ok o =>
        rw [hx] at hmain
        cases o with
        | none => simp at hmain
        | some vid' =>
          simp only at hmain
          cases hg : get_data api translate polarity vid' key MAX_RESULTS with
          | none => simp [hg] at hmain
          | some df =>
            simp only [hg] at hmain
            cases hs : show_report df with
            | error e => rw [hs] at hmain; cases hmain
            | ok rep =>
              rw [hs] at hmain
              simp only [Except.ok.injEq, MainOutcome.report.injEq] at hmain
              obtain ⟨rfl, rfl⟩ := hmain
              obtain ⟨items, hitems, hlen⟩ := get_data_some_length hg
              rw [hlen]
              exact hapi _ _ _ hitems

/-- Witness for C10: a driver run against an API that honours
`maxResults` yields a table of at most 50 records. -/
theorem main_max_results_witness :
    [mkRecord (fun _ => Except.ok none) (fun _ => (1 : ℚ)) ⟨"nice", "Bob"⟩].length ≤ 50 :=
  main_max_results.2
    ⟨fun _ => .ok (), fun _ n => .ok (List.replicate (min 1 n) (.ok ⟨"nice", "Bob"⟩))⟩
    (fun _ => Except.ok none) (fun _ => (1 : ℚ)) (some "k") "dQw4w9WgXcQ" "dQw4w9WgXcQ"
    [mkRecord (fun _ => Except.ok none) (fun _ => (1 : ℚ)) ⟨"nice", "Bob"⟩]
    (fun v n items h => by
      injection h with h
      subst h
      simp only [List.length_replicate]
      exact Nat.min_le_right 1 n)
    rfl

/-- Witness for C5: a singleton table with score 1/2 gets the Positive
verdict exactly because its mean exceeds 0.1. -/
theorem show_report_verdict_witness :
    (⟨1, some ((1:ℚ)/2), .positive, 1, 0, 0, 100, 0, 0⟩ : ReportSummary).verdict
        = Verdict.positive
      ↔ scoreSum [⟨"a", "o", "t", (1:ℚ)/2, Category.Positive⟩]
          / (([⟨"a", "o", "t", (1:ℚ)/2, Category.Positive⟩] : List Record).length : ℚ)
          > 1/10 :=
  (show_report_verdict [⟨"a", "o", "t", (1:ℚ)/2, Category.Positive⟩]
    ⟨1, some ((1:ℚ)/2), .positive, 1, 0, 0, 100, 0, 0⟩
    (by norm_num [show_report, scoreSum, countCat]; decide)).2.1

/-- Witness for C9: the percentages of the singleton-table report sum to
100. -/
theorem report_percentages_sum_witness :
    (⟨1, some ((1:ℚ)/2), .positive, 1, 0, 0, 100, 0, 0⟩ : ReportSummary).pos_pct
      + (⟨1, some ((1:ℚ)/2), .positive, 1, 0, 0, 100, 0, 0⟩ : ReportSummary).neg_pct
      + (⟨1, some ((1:ℚ)/2), .positive, 1, 0, 0, 100, 0, 0⟩ : ReportSummary).neu_pct
      = 100 :=
  report_percentages_sum [⟨"a", "o", "t", (1:ℚ)/2, Category.Positive⟩]
    ⟨1, some ((1:ℚ)/2), .positive, 1, 0, 0, 100, 0, 0⟩
    (by norm_num [show_report, scoreSum, countCat]; decide)

theorem schemeSplit_snd_subset (u : Chars) : (schemeSplit u).2 ⊆ u := by
  unfold schemeSplit
  split
  · split
    · exact List.drop_subset _ _
    · exact fun a ha => ha
  · exact fun a ha => ha

theorem stripUnsafe_subset (url : Chars) : stripUnsafe url ⊆ url := by
  intro a ha
  exact List.Sublist.subset (List.dropWhile_sublist _) (List.mem_of_mem_filter ha)

theorem netlocSplit_fst_nil {u : Chars} (h : '/' ∉ u) : (netlocSplit u).1 = [] := by
  unfold netlocSplit
  have ht : ¬u.take 2 = ['/', '/'] := by
    intro hc
    exact h (List.take_subset 2 u (by rw [hc]; simp))
  rw [if_neg ht]

theorem pyUrlsplit_ok_netloc {url : Chars} {r : SplitResult}
    (h : pyUrlsplit url = .ok r) :
    r.netloc = (netlocSplit (schemeSplit (stripUnsafe url)).2).1 := by
  unfold pyUrlsplit at h
  by_cases hb : ((netlocSplit (schemeSplit (stripUnsafe url)).2).1.contains '['
      != (netlocSplit (schemeSplit (stripUnsafe url)).2).1.contains ']') = true
  · rw [if_pos hb] at h
    cases h
  · rw [if_neg hb] at h
    cases h
    rfl

theorem hostnameOf_nil : hostnameOf [] = none := rfl

theorem pyUrlparse_netloc {url : Chars} {q : ParseResult6}
    (h : pyUrlparse url = .ok q) :
    ∃ r : SplitResult, pyUrlsplit url = .ok r ∧ q.netloc = r.netloc := by
  unfold pyUrlparse at h
  cases hs : pyUrlsplit url with
  | error e => rw [hs] at h; cases h
  | ok r =>
    simp only [hs] at h
    refine ⟨r, rfl, ?_⟩
    by_cases hc : r.scheme ∈ uses_params ∧ ';' ∈ r.path
    · rw [if_pos hc] at h
      cases h
      rfl
    · rw [if_neg hc] at h
      cases h
      rfl

/-- A parsed URL with a hostname contains a slash: the netloc can only
come from the `//` branch of `urlsplit`, and the sanitation and scheme
steps never introduce characters. -/
theorem hostname_has_slash {url : String} {q : ParseResult6} {h : Chars}
    (hq : pyUrlparse url.data = .ok q)
    (hh : hostnameOf q.netloc = some h) : '/' ∈ url.data := by
  obtain ⟨r, hs, hnl⟩ := pyUrlparse_netloc hq
  by_contra hns
  have h2 : '/' ∉ (schemeSplit (stripUnsafe url.data)).2 := fun hm =>
    hns (stripUnsafe_subset _ (schemeSplit_snd_subset _ hm))
  have h3 : r.netloc = [] := by
    rw [pyUrlsplit_ok_netloc hs]
    exact netlocSplit_fst_nil h2
  rw [hnl, h3, hostnameOf_nil] at hh
  cases hh

theorem splitChar_ne_nil (sep : Char) : ∀ l : Chars, splitChar sep l ≠ [] := by
  intro l
  cases l with
  | nil => simp [splitChar]
  | cons c cs =>
    simp only [splitChar]
    cases h : splitChar sep cs with
    | nil => simp
    | cons g gs =>
      by_cases hc : c = sep <;> simp [hc]

theorem splitChar_cons_sep (sep : Char) (l : Chars) :
    splitChar sep (sep :: l) = [] :: splitChar sep l := by
  simp only [splitChar]
  cases h : splitChar sep l with
  | nil => exact absurd h (splitChar_ne_nil sep l)
  | cons g gs => simp

theorem splitChar_append_noSep {sep : Char} :
    ∀ {a : Chars} (b : Chars), (∀ c ∈ a, c ≠ sep) →
      splitChar sep (a ++ sep :: b) = a :: splitChar sep b := by
  intro a
  induction a with
  | nil =>
    intro b _
    simp [splitChar_cons_sep]
  | cons x a' ih =>
    intro b ha
    have hx : x ≠ sep := ha x (by simp)
    have ha' : ∀ c ∈ a', c ≠ sep := fun c hc => ha c (by simp [hc])
    show (match splitChar sep (a' ++ sep :: b) with
      | g :: gs => if x = sep then [] :: g :: gs else (x :: g) :: gs
      | [] => [[x]]) = (x :: a') :: splitChar sep b
    rw [ih b ha']
    simp [hx]

/-- The `split('/')[2]` expression of the `/embed/`, `/v/` and `/shorts/`
branches: on a path of the form `/<seg>/<rest>` with `seg` slash-free, the
index-2 element exists and is the first group of the rest. -/
theorem splitChar_get2 (seg t : Chars) (hseg : ∀ c ∈ seg, c ≠ '/') :
    ∃ s, (splitChar '/' ('/' :: (seg ++ '/' :: t))).get? 2 = some s := by
  rw [splitChar_cons_sep, splitChar_append_noSep t hseg]
  cases h : splitChar '/' t with
  | nil => exact absurd h (splitChar_ne_nil '/' t)
  | cons g gs => exact ⟨g, by simp⟩

theorem mem_ytHosts_ne_youtube {nl : Chars} (hh : hostnameOf nl ∈ ytHosts.map some) :
    hostnameOf nl ≠ some "youtu.be".data := by
  rcases List.mem_map.mp hh with ⟨hst, hin, heq⟩
  rw [← heq]
  simp only [ytHosts, List.map_cons, List.map_nil, List.mem_cons, List.not_mem_nil,
    or_false] at hin
  rcases hin with h1 | h1 | h1 <;> subst h1 <;> decide

theorem mem_ytHosts_some {nl : Chars} (hh : hostnameOf nl ∈ ytHosts.map some) :
    ∃ h, hostnameOf nl = some h := by
  rcases List.mem_map.mp hh with ⟨hst, _, heq⟩
  exact ⟨hst, heq.symm⟩

/-- A URL whose parse has a recognized hostname cannot pass the
11-character bare-identifier test, since its text contains a slash. -/
theorem not_bare_of_hostname {url : String} {q : ParseResult6} {h : Chars}
    (hq : pyUrlparse url.data = .ok q) (hh : hostnameOf q.netloc = some h) :
    ¬looksLikeBareId url :=
  fun hb => hb.2.2 (hostname_has_slash hq hh)

/-- C8: for a URL whose parsed host is one of the known video-platform
domains and whose path is exactly `/watch` with no `v` query parameter,
`extract_video_id` fails with the missing-parameter `KeyError('v')`
rather than returning an identifier. -/
theorem watch_missing_v (url : String) (q : ParseResult6)
    (hq : pyUrlparse url.data = .ok q)
    (hh : hostnameOf q.netloc ∈ ytHosts.map some)
    (hp : q.path = "/watch".data)
    (hv : qsFirst q.query "v".data = none) :
    extract_video_id url = .error (PyErr.keyError "v") := by
  obtain ⟨h, hsome⟩ := mem_ytHosts_some hh
  have hbare : ¬looksLikeBareId url := not_bare_of_hostname hq hsome
  unfold extract_video_id
  rw [if_neg hbare]
  simp only [hq]
  rw [if_neg (mem_ytHosts_ne_youtube hh), if_pos hh, if_pos hp]
  simp only [hv]

/-- Witness for C8: a `/watch` URL with only a `t` parameter raises
`KeyError('v')`. -/
theorem watch_missing_v_witness :
    extract_video_id "https://www.youtube.com/watch?t=10"
      = .error (PyErr.keyError "v") :=
  watch_missing_v "https://www.youtube.com/watch?t=10"
    ⟨"https".data, "www.youtube.com".data, "/watch".data, [], "t=10".data, []⟩
    (by decide) (by decide) rfl (by decide)

/-- C1 (amended): the Identifier Extractor contract.  An input of exactly
11 characters with no space and no `/` is returned unchanged; otherwise,
for an input whose URL parse succeeds (a netloc with exactly one of `[`
and `]` raises `ValueError` instead, and that error propagates): host
`youtu.be` yields the path with its leading `/` stripped; a host among
`youtube.com`, `www.youtube.com` and `m.youtube.com` yields, for path
`/watch`, the first value of the `v` query parameter when present, and
for a path starting with `/shorts/`, `/embed/` or `/v/`, the path segment
immediately after the prefix (`split('/')[2]`, which always exists);
every other shape yields the failure signal `None`. -/
theorem extractor_contract (url : String) (q : ParseResult6)
    (hq : pyUrlparse url.data = .ok q) :
    (looksLikeBareId url → extract_video_id url = .ok (some url))
    ∧ (hostnameOf q.netloc = some "youtu.be".data →
        extract_video_id url = .ok (some (String.mk (q.path.drop 1))))
    ∧ (hostnameOf q.netloc ∈ ytHosts.map some →
        (q.path = "/watch".data → ∀ v, qsFirst q.query "v".data = some v →
          extract_video_id url = .ok (some (String.mk v)))
        ∧ (q.path.take 8 = "/shorts/".data →
          ∃ s, (splitChar '/' q.path).get? 2 = some s
            ∧ extract_video_id url = .ok (some (String.mk s)))
        ∧ (q.path.take 7 = "/embed/".data →
          ∃ s, (splitChar '/' q.path).get? 2 = some s
            ∧ extract_video_id url = .ok (some (String.mk s)))
        ∧ (q.path.take 3 = "/v/".data →
          ∃ s, (splitChar '/' q.path).get? 2 = some s
            ∧ extract_video_id url = .ok (some (String.mk s))))
    ∧ (¬looksLikeBareId url → hostnameOf q.netloc ≠ some "youtu.be".data →
        hostnameOf q.netloc ∉ ytHosts.map some →
        extract_video_id url = .ok none)
    ∧ (hostnameOf q.netloc ∈ ytHosts.map some →
        q.path ≠ "/watch".data → q.path.take 7 ≠ "/embed/".data →
        q.path.take 3 ≠ "/v/".data → q.path.take 8 ≠ "/shorts/".data →
        extract_video_id url = .ok none) := by
  refine ⟨?_, ?_, ?_, ?_, ?_⟩
  · intro hb
    unfold extract_video_id
    rw [if_pos hb]
  · intro hh
    have hbare : ¬looksLikeBareId url := not_bare_of_hostname hq hh
    unfold extract_video_id
    rw [if_neg hbare]
    simp only [hq]
    rw [if_pos hh]
  · intro hh
    obtain ⟨h, hsome⟩ := mem_ytHosts_some hh
    have hbare : ¬looksLikeBareId url := not_bare_of_hostname hq hsome
    have hne := mem_ytHosts_ne_youtube hh
    refine ⟨?_, ?_, ?_, ?_⟩
    · intro hp v hv
      unfold extract_video_id
      rw [if_neg hbare]
      simp only [hq]
      rw [if_neg hne, if_pos hh, if_pos hp]
      simp only [hv]
    · intro htake
      have hpath : q.path = '/' :: ("shorts".data ++ '/' :: q.path.drop 8) := by
        conv_lhs => rw [← List.take_append_drop 8 q.path, htake]
        rfl
      obtain ⟨s, hs⟩ := splitChar_get2 "shorts".data (q.path.drop 8) (by decide)
      rw [← hpath] at hs
      refine ⟨s, hs, ?_⟩
      have hw : q.path ≠ "/watch".data := by
        intro hc
        rw [hc] at htake
        exact absurd htake (by decide)
      have hemb : q.path.take 7 ≠ "/embed/".data := by
        intro hc
        have h2 : (q.path.take 8).take 7 = q.path.take 7 := by
          rw [List.take_take]
          congr 1
        rw [htake, hc] at h2
        exact absurd h2 (by decide)
      have hv3 : q.path.take 3 ≠ "/v/".data := by
        intro hc
        have h2 : (q.path.take 8).take 3 = q.path.take 3 := by
          rw [List.take_take]
          congr 1
        rw [htake, hc] at h2
        exact absurd h2 (by decide)
      unfold extract_video_id
      rw [if_neg hbare]
      simp only [hq]
      rw [if_neg hne, if_pos hh, if_neg hw, if_neg hemb, if_neg hv3, if_pos htake]
      simp only [hs]
    · intro htake
      have hpath : q.path = '/' :: ("embed".data ++ '/' :: q.path.drop 7) := by
        conv_lhs => rw [← List.take_append_drop 7 q.path, htake]
        rfl
      obtain ⟨s, hs⟩ := splitChar_get2 "embed".data (q.path.drop 7) (by decide)
      rw [← hpath] at hs
      refine ⟨s, hs, ?_⟩
      have hw : q.path ≠ "/watch".data := by
        intro hc
        rw [hc] at htake
        exact absurd htake (by decide)
      unfold extract_video_id
      rw [if_neg hbare]
      simp only [hq]
      rw [if_neg hne, if_pos hh, if_neg hw, if_pos htake]
      simp only [hs]
    · intro htake
      have hpath : q.path = '/' :: ("v".data ++ '/' :: q.path.drop 3) := by
        conv_lhs => rw [← List.take_append_drop 3 q.path, htake]
        rfl
      obtain ⟨s, hs⟩ := splitChar_get2 "v".data (q.path.drop 3) (by decide)
      rw [← hpath] at hs
      refine ⟨s, hs, ?_⟩
      have hw : q.path ≠ "/watch".data := by
        intro hc
        rw [hc] at htake
        exact absurd htake (by decide)
      have hemb : q.path.take 7 ≠ "/embed/".data := by
        intro hc
        have h2 : (q.path.take 7).take 3 = q.path.take 3 := by
          rw [List.take_take]
          congr 1
        rw [hc, htake] at h2
        exact absurd h2 (by decide)
      unfold extract_video_id
      rw [if_neg hbare]
      simp only [hq]
      rw [if_neg hne, if_pos hh, if_neg hw, if_neg hemb, if_pos htake]
      simp only [hs]
  · intro hbare hne hnm
    unfold extract_video_id
    rw [if_neg hbare]
    simp only [hq]
    rw [if_neg hne, if_neg hnm]
  · intro hh hw hemb hv3 hsh
    obtain ⟨h, hsome⟩ := mem_ytHosts_some hh
    have hbare : ¬looksLikeBareId url := not_bare_of_hostname hq hsome
    unfold extract_video_id
    rw [if_neg hbare]
    simp only [hq]
    rw [if_neg (mem_ytHosts_ne_youtube hh), if_pos hh, if_neg hw, if_neg hemb,
      if_neg hv3, if_neg hsh]

/-- Counterexample to C1 exactly as stated: `"http://["` matches none of
the recognized shapes, yet `extract_video_id` does not return the failure
signal `None` — the `ValueError("Invalid IPv6 URL")` that `urlparse`
raises on a netloc with an unmatched bracket propagates out of the
function. -/
theorem extractor_contract_counterexample :
    extract_video_id "http://[" = .error (PyErr.valueError "Invalid IPv6 URL")
    ∧ extract_video_id "http://[" ≠ .ok none :=
  ⟨by decide, by decide⟩

/-- Witness for C1 at a concrete `/watch` URL. -/
theorem extractor_contract_witness :
    extract_video_id "https://www.youtube.com/watch?v=dQw4w9WgXcQ"
      = .ok (some "dQw4w9WgXcQ") := by
  have h := (extractor_contract "https://www.youtube.com/watch?v=dQw4w9WgXcQ"
    ⟨"https".data, "www.youtube.com".data, "/watch".data, [], "v=dQw4w9WgXcQ".data, []⟩
    (by decide)).2.2.1 (by decide)
  exact h.1 rfl "dQw4w9WgXcQ".data (by decide)
